import Mathlib

/-!
Verification development for the transfer-job orchestrator consisting of
`ftsmanager.py` (the FTS manager: intake listener, submission executor and
reconciliation poller) and `transfersubmit.py` (the HTTP intake saga).

The embedding models:
* the `jobs` table rows touched by the core (columns `job_id`, `status`,
  `extra_status`, `fts_jobid`, `fts_details`; other columns such as
  `time_submitted` or `stager_callback` are never read by the claims),
* the pure per-call behaviour of `_start_fts_transfer`, `_FTSUpdater`,
  `_transfer_queue_listener` and `TransferSubmit.render_POST`, with the
  external systems (FTS server, database, RabbitMQ) abstracted as outcome
  oracles (a call either succeeds or raises), and
* a labelled transition system for the whole orchestrator, in which the
  `DeferredSemaphore` admission gate is the `held` counter.

Strings and paths are modelled as `List Char`.
-/

/-- The `status` column values used by the core
(`STAGING → TRANSFERRING → SUCCESS | ERROR`). -/
inductive Status where
  | STAGING
  | TRANSFERRING
  | SUCCESS
  | ERROR
deriving DecidableEq, Repr

/-- One row of the `jobs` table, restricted to the columns the orchestrator
core reads or writes. -/
structure JobRec where
  job_id : Nat
  status : Status
  extra_status : Option (List Char)
  fts_jobid : Option Nat
  fts_details : Option Nat
deriving DecidableEq, Repr

/-- `SELECT ... WHERE job_id = j` (point read; `job_id` is the key). -/
def lookupJob (j : Nat) : List JobRec → Option JobRec
  | [] => none
  | r :: s => if r.job_id = j then some r else lookupJob j s

/-- `UPDATE jobs SET ... WHERE job_id = j`: apply the column update `f` to
every row whose key is `j` (at most one row when keys are unique). -/
def setJob (j : Nat) (f : JobRec → JobRec) : List JobRec → List JobRec
  | [] => []
  | r :: s => (if r.job_id = j then f r else r) :: setJob j f s

/-- Number of rows currently in status `TRANSFERRING`. -/
def countT : List JobRec → Nat
  | [] => 0
  | r :: s => (if r.status = Status.TRANSFERRING then 1 else 0) + countT s

/-- Python `str.rstrip('/')` (and `rstrip(os.sep)` on a POSIX host, where
`os.sep = '/'`): drop all trailing path separators. -/
def rstripSep (s : List Char) : List Char :=
  (s.reverse.dropWhile (fun c => c = '/')).reverse

/-- Python `os.path.basename`: the suffix after the last `'/'` (the whole
string when it contains no `'/'`). -/
def pathBasename (s : List Char) : List Char :=
  (s.reverse.takeWhile (fun c => ¬ c = '/')).reverse

/-- `src = 'gsiftp://%s%s' % (r[0][1], str(r[0][0]).rstrip(os.sep))` in
`_start_fts_transfer`, where `r[0][1]` is `stager_hostname` and `r[0][0]`
is `stager_path`. -/
def mkFtsSrc (stager_hostname stager_path : List Char) : List Char :=
  "gsiftp://".toList ++ stager_hostname ++ rstripSep stager_path

/-- `dst = '%s/%s' % (str(r[0][2]).rstrip('/'), basename(r[0][0]))` in
`_start_fts_transfer`, where `r[0][2]` is `destination_path`; note that
`basename` is applied to the unstripped `stager_path`. -/
def mkFtsDst (destination_path stager_path : List Char) : List Char :=
  rstripSep destination_path ++ '/' :: pathBasename stager_path

/-- Diagnostic written by `_start_fts_transfer` when `fts3.Context` raises. -/
def ctxFailMsg : List Char :=
  "Failed to create FTS context when setting up transfer".toList

/-- Diagnostic written by `_start_fts_transfer` when `fts3.new_transfer`,
`fts3.new_job`, `fts3.submit` or the immediate `fts3.get_job_status` raises. -/
def submitFailMsg : List Char :=
  "Error submitting job to FTS".toList

/-- Diagnostic written by `_start_fts_transfer` when the final
`UPDATE ... status='TRANSFERRING'` raises. -/
def updateFailMsg : List Char :=
  "Error updating job status following FTS submission".toList

/-- Which call inside one run of `_start_fts_transfer` fails first, if any:
`ctxFail` = `fts3.Context` raises; `rowMissing` = the `SELECT` returns no
row; `submitFail` = the `fts3.submit` block raises (this block also contains
the immediate initial `fts3.get_job_status`); `updateFail` = the
`TRANSFERRING` status update raises; `ok` = everything succeeds. -/
inductive SubmitOutcome where
  | ctxFail
  | rowMissing
  | submitFail
  | updateFail
  | ok
deriving DecidableEq, Repr

/-- The effect of one run of `_start_fts_transfer` on the job's row,
together with the number of `_sem_fts.release()` calls that run performs.
The source contains no release call on any path (the function does not even
declare `global _sem_fts`), so the second component is `0` in every branch. -/
def startFtsTransfer (o : SubmitOutcome) (handle details : Nat) (r : JobRec) :
    JobRec × Nat :=
  match o with
  | SubmitOutcome.ctxFail =>
      ({ r with status := Status.ERROR, extra_status := some ctxFailMsg }, 0)
  | SubmitOutcome.rowMissing => (r, 0)
  | SubmitOutcome.submitFail =>
      ({ r with status := Status.ERROR, extra_status := some submitFailMsg }, 0)
  | SubmitOutcome.updateFail =>
      ({ r with status := Status.ERROR, extra_status := some updateFailMsg }, 0)
  | SubmitOutcome.ok =>
      ({ r with status := Status.TRANSFERRING,
                fts_jobid := some handle,
                fts_details := some details }, 0)

/-- The `job_state` field of an FTS status reply as consumed by
`_FTSUpdater`: `FINISHED`, `FAILED`, and every other value (grouped as
`other`, tagged so that distinct in-progress states exist). -/
inductive FtsJobState where
  | FINISHED
  | FAILED
  | other (tag : Nat)
deriving DecidableEq, Repr

/-- The row update `_FTSUpdater` performs for one job after observing FTS
state `s` with opaque status payload `d` (the code stores
`str(fts_job_status)`; `d` stands for that payload). -/
def pollApply (s : FtsJobState) (d : Nat) (r : JobRec) : JobRec :=
  match s with
  | FtsJobState.FINISHED =>
      { r with status := Status.SUCCESS, fts_details := some d }
  | FtsJobState.FAILED =>
      { r with status := Status.ERROR, fts_details := some d }
  | FtsJobState.other _ =>
      { r with fts_details := some d }

/-- Whether `_FTSUpdater` calls `_sem_fts.release()` for a job observed in
FTS state `s` (it does exactly for `FINISHED` and `FAILED`). -/
def pollRel (s : FtsJobState) : Bool :=
  match s with
  | FtsJobState.FINISHED => true
  | FtsJobState.FAILED => true
  | FtsJobState.other _ => false

/-- `SELECT job_id, fts_jobid FROM jobs WHERE status='TRANSFERRING'`:
the list `_FTSUpdater` iterates over, in row order. -/
def listTransferring : List JobRec → List (Nat × Option Nat)
  | [] => []
  | r :: s =>
    if r.status = Status.TRANSFERRING
    then (r.job_id, r.fts_jobid) :: listTransferring s
    else listTransferring s

/-- The `for job in r:` loop of `_FTSUpdater`. `ext` maps an FTS job handle
to the observed `(job_state, payload)`; `qfail j = true` means the per-job
work for job `j` raises (e.g. `fts3.get_job_status` throws). The whole loop
is wrapped in a single `try`, so a raise ends the loop: the function
returns with the store as it stands, and later list entries are untouched.
Result: `(final store, job ids for which release() was called, aborted)`. -/
def pollLoop (ext : Option Nat → FtsJobState × Nat) (qfail : Nat → Bool) :
    List (Nat × Option Nat) → List JobRec → List JobRec × List Nat × Bool
  | [], store => (store, [], false)
  | (j, h) :: rest, store =>
    match qfail j with
    | true => (store, [], true)
    | false =>
      let res := pollLoop ext qfail rest
        (setJob j (pollApply (ext h).1 (ext h).2) store)
      (res.1, (if pollRel (ext h).1 then [j] else []) ++ res.2.1, res.2.2)

/-- One run of `_FTSUpdater`: context creation failure or list-query failure
aborts the run with no work done; otherwise the per-job loop runs over the
frozen `TRANSFERRING` list. -/
def ftsUpdater (ctxOk listOk : Bool) (ext : Option Nat → FtsJobState × Nat)
    (qfail : Nat → Bool) (store : List JobRec) :
    List JobRec × List Nat × Bool :=
  match ctxOk with
  | false => (store, [], true)
  | true =>
    match listOk with
    | false => (store, [], true)
    | true => pollLoop ext qfail (listTransferring store) store

/-- Error message of the 400 response when `productID` is absent from the
form (`'Form did not specify {0}'.format(formvar)`). -/
def missingProductMsg : List Char := "Form did not specify productID".toList

/-- Error message of the 400 response when `destinationPath` is absent. -/
def missingDestMsg : List Char := "Form did not specify destinationPath".toList

/-- What `render_POST` ends up sending to the caller.
`errorBody` is a structured error JSON (`error: true`, optional `job_id`,
message) written and finished; `accepted` is the 202 success JSON carrying
the job id; `noBodyWritten` means the request is never answered: on every
errback path `handleCreationError` evaluates
`isinstance(SubmitException, e.value)` whose arguments are swapped, which
raises `TypeError` before any `request.write`/`request.finish` runs. -/
inductive SagaResp where
  | accepted (job_id : Nat)
  | errorBody (job_id : Option Nat) (msg : List Char)
  | noBodyWritten
deriving DecidableEq, Repr

/-- Observable outcome of one `render_POST` call: the job row's final
status (`none` when the `INSERT` rolled back), the job ids published to the
staging queue, and the response. -/
structure SagaResult where
  record : Option Status
  published : List Nat
  resp : SagaResp
deriving DecidableEq, Repr

/-- `TransferSubmit.render_POST` as a function of which steps succeed.
Step order in the source: form-field check, `add_initial` (INSERT with
status `'ERROR'`), `add_to_rabbitmq` (publish `job_uuid`),
`update_job_status_submitted` (UPDATE to `'STAGING'`; its own exception is
caught inside the function, so the callback chain continues),
`report_job_creation` (writes the 202 success body). Any exception from
`add_initial` or `add_to_rabbitmq` goes to `handleCreationError`, which
itself raises (swapped `isinstance` arguments), leaving the request
unanswered. -/
def renderPost (hasProductID hasDestinationPath : Bool) (job_uuid : Nat)
    (insertOk publishOk updateOk : Bool) : SagaResult :=
  match hasProductID with
  | false => ⟨none, [], SagaResp.errorBody none missingProductMsg⟩
  | true =>
    match hasDestinationPath with
    | false => ⟨none, [], SagaResp.errorBody none missingDestMsg⟩
    | true =>
      match insertOk with
      | false => ⟨none, [], SagaResp.noBodyWritten⟩
      | true =>
        match publishOk with
        | false => ⟨some Status.ERROR, [], SagaResp.noBodyWritten⟩
        | true =>
          match updateOk with
          | false => ⟨some Status.ERROR, [job_uuid], SagaResp.accepted job_uuid⟩
          | true => ⟨some Status.STAGING, [job_uuid], SagaResp.accepted job_uuid⟩

/-- Effects of one iteration of the `while True:` loop in
`_transfer_queue_listener` on a dequeued message body: whether
`_sem_fts.acquire()` was awaited, which bodies were handed to
`_start_fts_transfer`, and whether `basic_ack` was sent. All three happen
only inside `if body:`, so a falsy (empty) body produces none of them and
the loop goes straight back to `queue.get()`. -/
structure ListenIter where
  acquired : Bool
  dispatched : List (List Char)
  acked : Bool
deriving DecidableEq, Repr

/-- One iteration of the `_transfer_queue_listener` loop. -/
def transferQueueIter (body : List Char) : ListenIter :=
  if body.isEmpty then ⟨false, [], false⟩ else ⟨true, [body], true⟩

/-!
Labelled transition system for the orchestrator.

A state holds the `jobs` table, the transfer-intake queue's pending message
bodies (`none` = an empty, falsy body), the set of dispatched
`_start_fts_transfer` tasks that have not yet finished, and the number of
semaphore slots currently held (`DeferredSemaphore(N)` starts with `held = 0`;
`acquire()` is enabled only when `held < N`).

Transition granularity follows the cooperative scheduler of the source: every
database, broker and FTS call in the source is a suspension point, scheduled
one at a time by the Twisted reactor, and `LoopingCall` never overlaps two
`_FTSUpdater` runs, so each per-job poll observation and each executor
completion is one atomic step. A job enters the system (`newJob`) when the
intake saga has created its row and the external staging pipeline has
published its id to the transfer queue; the row is then in status `STAGING`.
-/

/-- Orchestrator state. -/
structure OrchState where
  jobs : List JobRec
  queue : List (Option Nat)
  pending : List Nat
  held : Nat
deriving DecidableEq, Repr

/-- Start state: empty table, empty queue, no tasks, no held slots
(`_sem_fts = DeferredSemaphore(int(concurrent_max))`). -/
def initOrch : OrchState := ⟨[], [], [], 0⟩

/-- Keys present in the jobs table. -/
def jids (st : OrchState) : List Nat := st.jobs.map (fun r => r.job_id)

/-- The status column of job `j`, when the row exists. -/
def jobStatus (st : OrchState) (j : Nat) : Option Status :=
  (lookupJob j st.jobs).map (fun r => r.status)

/-- Row created for a job that has completed staging: the intake saga set it
to `STAGING` and the (out-of-scope) staging pipeline filled the stager
columns; the FTS columns are still null. -/
def newRec (j : Nat) : JobRec := ⟨j, Status.STAGING, none, none, none⟩

/-- Remove one occurrence of `j` (a dispatched executor task finishing). -/
def removeOne (j : Nat) : List Nat → List Nat
  | [] => []
  | k :: l => if k = j then l else k :: removeOne j l

/-- Transition labels: semaphore acquisitions and releases are observable,
everything else is `tau`. -/
inductive Lab where
  | acq (j : Nat)
  | rel (j : Nat)
  | tau
deriving DecidableEq, Repr

/-- One orchestrator step, for configured maximum concurrency `N`.

* `newJob`: the staging pipeline publishes a fresh job id to the transfer
  queue (its row, created by the saga, is in `STAGING`).
* `emptyMsg`: `_transfer_queue_listener` dequeues a falsy body: no acquire,
  no dispatch, no ack, straight back to `queue.get()`.
* `dispatch`: the listener dequeues body `j`, awaits `_sem_fts.acquire()`
  (enabled only when a slot is free), fires `_start_fts_transfer(j)` and
  acks the message.
* `execFin`: a dispatched `_start_fts_transfer(j)` run completes with
  outcome `o`, applying its single row update (`startFtsTransfer`); no
  branch of the source releases the semaphore.
* `pollTerm`: `_FTSUpdater` processes a listed `TRANSFERRING` job whose FTS
  state is terminal: row update then `_sem_fts.release()`.
* `pollProg`: `_FTSUpdater` processes a listed `TRANSFERRING` job still in
  progress: `fts_details` only, no release. -/
inductive OStep (N : Nat) : OrchState → Lab → OrchState → Prop where
  | newJob (st : OrchState) (j : Nat) (hj : ¬ j ∈ jids st) :
      OStep N st Lab.tau
        ⟨st.jobs ++ [newRec j], st.queue ++ [some j], st.pending, st.held⟩
  | emptyMsg (st : OrchState) (q : List (Option Nat)) (hq : st.queue = none :: q) :
      OStep N st Lab.tau ⟨st.jobs, q, st.pending, st.held⟩
  | dispatch (st : OrchState) (j : Nat) (q : List (Option Nat))
      (hq : st.queue = some j :: q) (hN : st.held < N) :
      OStep N st (Lab.acq j)
        ⟨st.jobs, q, st.pending ++ [j], st.held + 1⟩
  | execFin (st : OrchState) (j : Nat) (o : SubmitOutcome) (handle details : Nat)
      (hp : j ∈ st.pending) :
      OStep N st Lab.tau
        ⟨setJob j (fun r => (startFtsTransfer o handle details r).1) st.jobs,
         st.queue, removeOne j st.pending, st.held⟩
  | pollTerm (st : OrchState) (j : Nat) (s : FtsJobState) (d : Nat)
      (hs : jobStatus st j = some Status.TRANSFERRING) (hrel : pollRel s = true) :
      OStep N st (Lab.rel j)
        ⟨setJob j (pollApply s d) st.jobs, st.queue, st.pending, st.held - 1⟩
  | pollProg (st : OrchState) (j : Nat) (s : FtsJobState) (d : Nat)
      (hs : jobStatus st j = some Status.TRANSFERRING) (hrel : pollRel s = false) :
      OStep N st Lab.tau
        ⟨setJob j (pollApply s d) st.jobs, st.queue, st.pending, st.held⟩

/-- Finite runs of the transition system, recording the label trace. -/
inductive OSteps (N : Nat) : OrchState → List Lab → OrchState → Prop where
  | nil (st : OrchState) : OSteps N st [] st
  | cons {st1 : OrchState} {l : Lab} {st2 : OrchState} {tr : List Lab}
      {st3 : OrchState} (h : OStep N st1 l st2) (hs : OSteps N st2 tr st3) :
      OSteps N st1 (l :: tr) st3

/-- Number of `acq j` labels in a trace. -/
def acqCount (j : Nat) : List Lab → Nat
  | [] => 0
  | l :: tr => (if l = Lab.acq j then 1 else 0) + acqCount j tr

/-- Number of `rel j` labels in a trace. -/
def relCount (j : Nat) : List Lab → Nat
  | [] => 0
  | l :: tr => (if l = Lab.rel j then 1 else 0) + relCount j tr

/-- Number of occurrences of `j` in a list of job ids (used for the list of
release calls a poller run performs). -/
def natCount (j : Nat) : List Nat → Nat
  | [] => 0
  | k :: l => (if k = j then 1 else 0) + natCount j l

/-- Status weight used for counting `TRANSFERRING` rows. -/
def tbW (r : JobRec) : Nat := if r.status = Status.TRANSFERRING then 1 else 0

/-- Gate-safety invariant: keys are unique, every `TRANSFERRING` row and
every still-running dispatched executor accounts for a held slot, and the
held count never exceeds the semaphore's initial count `N`. -/
def gateInv (N : Nat) (st : OrchState) : Prop :=
  (st.jobs.map (fun r => r.job_id)).Nodup ∧
  countT st.jobs + st.pending.length ≤ st.held ∧
  st.held ≤ N

/-- Job `j` can no longer be touched by any transition: its row is terminal,
no executor task for it is pending, and no queue message carries it. -/
def noTouch (j : Nat) (st : OrchState) : Prop :=
  (jobStatus st j = some Status.SUCCESS ∨ jobStatus st j = some Status.ERROR) ∧
  ¬ j ∈ st.pending ∧ ¬ (some j) ∈ st.queue

theorem countT_cons (r : JobRec) (s : List JobRec) :
    countT (r :: s) = tbW r + countT s := rfl

theorem countT_append (s t : List JobRec) :
    countT (s ++ t) = countT s + countT t := by
  induction s with
  | nil => simp [countT]
  | cons a l ih => simp [countT, ih]; omega

theorem lookupJob_some {j : Nat} {s : List JobRec} {r : JobRec}
    (h : lookupJob j s = some r) : r ∈ s ∧ r.job_id = j := by
  induction s with
  | nil => simp [lookupJob] at h
  | cons a l ih =>
    by_cases ha : a.job_id = j
    · simp [lookupJob, ha] at h
      subst h
      exact ⟨List.mem_cons_self a l, ha⟩
    · simp [lookupJob, ha] at h
      rcases ih h with ⟨hm, hid⟩
      exact ⟨List.mem_cons_of_mem a hm, hid⟩

theorem lookupJob_none_iff {j : Nat} {s : List JobRec} :
    lookupJob j s = none ↔ ¬ j ∈ s.map (fun r => r.job_id) := by
  induction s with
  | nil => simp [lookupJob]
  | cons a l ih =>
    by_cases ha : a.job_id = j
    · simp [lookupJob, ha]
    · rw [lookupJob, if_neg ha, List.map_cons, ih]
      constructor
      · intro h hm
        rcases List.mem_cons.mp hm with he | hm2
        · exact ha he.symm
        · exact h hm2
      · intro h hm
        exact h (List.mem_cons_of_mem _ hm)

theorem lookupJob_of_mem_nodup {s : List JobRec} {r : JobRec}
    (hnod : (s.map (fun r => r.job_id)).Nodup) (hr : r ∈ s) :
    lookupJob r.job_id s = some r := by
  induction s with
  | nil => simp at hr
  | cons a l ih =>
    rw [List.map_cons, List.nodup_cons] at hnod
    rcases List.mem_cons.mp hr with h | h
    · subst h
      simp [lookupJob]
    · have hne : ¬ a.job_id = r.job_id := by
        intro he
        exact hnod.1 (he ▸ List.mem_map_of_mem (fun r => r.job_id) h)
      simp [lookupJob, hne]
      exact ih hnod.2 h

theorem lookupJob_append_left {j : Nat} {s : List JobRec} {r : JobRec}
    (t : List JobRec) (h : lookupJob j s = some r) :
    lookupJob j (s ++ t) = some r := by
  induction s with
  | nil => simp [lookupJob] at h
  | cons a l ih =>
    by_cases ha : a.job_id = j
    · simp [lookupJob, ha] at h ⊢
      exact h
    · simp [lookupJob, ha] at h ⊢
      exact ih h

theorem setJob_map_jid {f : JobRec → JobRec}
    (hf : ∀ r, (f r).job_id = r.job_id) (j : Nat) (s : List JobRec) :
    (setJob j f s).map (fun r => r.job_id) = s.map (fun r => r.job_id) := by
  induction s with
  | nil => rfl
  | cons a l ih =>
    by_cases ha : a.job_id = j
    · simp [setJob, ha, hf, ih]
    · simp [setJob, ha, ih]

theorem setJob_not_mem {j : Nat} {s : List JobRec}
    (h : ¬ j ∈ s.map (fun r => r.job_id)) (f : JobRec → JobRec) :
    setJob j f s = s := by
  induction s with
  | nil => rfl
  | cons a l ih =>
    rw [List.map_cons] at h
    have ha : ¬ a.job_id = j := by
      intro he
      exact h (by rw [← he]; exact List.mem_cons_self _ _)
    have hl : ¬ j ∈ l.map (fun r => r.job_id) :=
      fun hm => h (List.mem_cons_of_mem _ hm)
    rw [setJob, if_neg ha, ih hl]

theorem lookupJob_setJob_self {f : JobRec → JobRec}
    (hf : ∀ r, (f r).job_id = r.job_id) (j : Nat) (s : List JobRec) :
    lookupJob j (setJob j f s) = (lookupJob j s).map f := by
  induction s with
  | nil => rfl
  | cons a l ih =>
    by_cases ha : a.job_id = j
    · simp [setJob, lookupJob, ha, hf]
    · simp [setJob, lookupJob, ha, hf, ih]

theorem lookupJob_setJob_ne {f : JobRec → JobRec}
    (hf : ∀ r, (f r).job_id = r.job_id) {k j : Nat} (hkj : ¬ k = j)
    (s : List JobRec) :
    lookupJob k (setJob j f s) = lookupJob k s := by
  induction s with
  | nil => rfl
  | cons a l ih =>
    by_cases ha : a.job_id = j
    · have h1 : ¬ (f a).job_id = k := by
        rw [hf a, ha]
        intro he
        exact hkj he.symm
      have h2 : ¬ a.job_id = k := by
        rw [ha]
        intro he
        exact hkj he.symm
      rw [setJob, if_pos ha, lookupJob, if_neg h1, lookupJob, if_neg h2, ih]
    · rw [setJob, if_neg ha, lookupJob, lookupJob]
      by_cases h2 : a.job_id = k
      · rw [if_pos h2, if_pos h2]
      · rw [if_neg h2, if_neg h2, ih]

theorem countT_setJob {j : Nat} {s : List JobRec} {r0 : JobRec}
    (hnod : (s.map (fun r => r.job_id)).Nodup)
    (hr : lookupJob j s = some r0) (f : JobRec → JobRec) :
    countT (setJob j f s) + tbW r0 = countT s + tbW (f r0) := by
  induction s with
  | nil => simp [lookupJob] at hr
  | cons a l ih =>
    rw [List.map_cons, List.nodup_cons] at hnod
    by_cases ha : a.job_id = j
    · simp [lookupJob, ha] at hr
      subst hr
      have hnotin : ¬ j ∈ l.map (fun r => r.job_id) := ha ▸ hnod.1
      rw [setJob, if_pos ha, setJob_not_mem hnotin f, countT_cons, countT_cons]
      omega
    · simp [lookupJob, ha] at hr
      have := ih hnod.2 hr
      rw [setJob, if_neg ha, countT_cons, countT_cons]
      omega

theorem countT_pos {j : Nat} {s : List JobRec} {r0 : JobRec}
    (hr : lookupJob j s = some r0)
    (ht : r0.status = Status.TRANSFERRING) : 1 ≤ countT s := by
  induction s with
  | nil => simp [lookupJob] at hr
  | cons a l ih =>
    by_cases ha : a.job_id = j
    · simp [lookupJob, ha] at hr
      subst hr
      rw [countT_cons, tbW, if_pos ht]
      omega
    · simp [lookupJob, ha] at hr
      have := ih hr
      rw [countT_cons]
      omega

theorem length_removeOne {j : Nat} {l : List Nat} (h : j ∈ l) :
    (removeOne j l).length + 1 = l.length := by
  induction l with
  | nil => simp at h
  | cons k t ih =>
    by_cases hk : k = j
    · simp [removeOne, hk]
    · rcases List.mem_cons.mp h with he | hm
      · exact absurd he.symm hk
      · simp [removeOne, hk]
        exact ih hm

theorem mem_of_mem_removeOne {x j : Nat} {l : List Nat}
    (h : x ∈ removeOne j l) : x ∈ l := by
  induction l with
  | nil => simp [removeOne] at h
  | cons k t ih =>
    by_cases hk : k = j
    · rw [removeOne, if_pos hk] at h
      exact List.mem_cons_of_mem k h
    · rw [removeOne, if_neg hk] at h
      rcases List.mem_cons.mp h with he | hm
      · exact he ▸ List.mem_cons_self k t
      · exact List.mem_cons_of_mem k (ih hm)

theorem nodup_append_one {xs : List Nat} {j : Nat}
    (h1 : xs.Nodup) (h2 : ¬ j ∈ xs) : (xs ++ [j]).Nodup := by
  induction xs with
  | nil => simp
  | cons a l ih =>
    rw [List.nodup_cons] at h1
    simp at h2
    rw [List.cons_append, List.nodup_cons]
    constructor
    · simp
      constructor
      · exact h1.1
      · intro he
        exact h2.1 he.symm
    · exact ih h1.2 (by intro hm; exact h2.2 hm)

theorem jid_startFtsTransfer (o : SubmitOutcome) (handle details : Nat)
    (r : JobRec) :
    ((startFtsTransfer o handle details r).1).job_id = r.job_id := by
  cases o <;> rfl

theorem jid_pollApply (s : FtsJobState) (d : Nat) (r : JobRec) :
    (pollApply s d r).job_id = r.job_id := by
  cases s <;> rfl

theorem tbW_le_one (r : JobRec) : tbW r ≤ 1 := by
  rw [tbW]
  split <;> omega

theorem tbW_pollApply_term {s : FtsJobState} (hrel : pollRel s = true)
    (d : Nat) (r : JobRec) : tbW (pollApply s d r) = 0 := by
  cases s with
  | FINISHED => rfl
  | FAILED => rfl
  | other t => simp [pollRel] at hrel

theorem tbW_pollApply_prog {s : FtsJobState} (hrel : pollRel s = false)
    (d : Nat) (r : JobRec) : tbW (pollApply s d r) = tbW r := by
  cases s with
  | FINISHED => simp [pollRel] at hrel
  | FAILED => simp [pollRel] at hrel
  | other t => rfl

theorem gateInv_init (N : Nat) : gateInv N initOrch := by
  refine ⟨?_, ?_, ?_⟩ <;> simp [initOrch, countT]

theorem gateInv_step {N : Nat} {st : OrchState} {l : Lab} {st' : OrchState}
    (h : OStep N st l st') (hI : gateInv N st) : gateInv N st' := by
  rcases hI with ⟨hnod, hbound, hcap⟩
  cases h with
  | newJob j hj =>
    refine ⟨?_, ?_, hcap⟩
    · rw [List.map_append]
      exact nodup_append_one hnod (by simpa [jids] using hj)
    · have : countT (st.jobs ++ [newRec j]) = countT st.jobs := by
        rw [countT_append]
        simp [countT, tbW, newRec]
      simpa [this] using hbound
  | emptyMsg q hq => exact ⟨hnod, hbound, hcap⟩
  | dispatch j q hq hN =>
    refine ⟨hnod, ?_, hN⟩
    simp only [List.length_append, List.length_cons, List.length_nil]
    omega
  | execFin j o handle details hp =>
    have hf : ∀ r : JobRec, ((startFtsTransfer o handle details r).1).job_id = r.job_id :=
      jid_startFtsTransfer o handle details
    have hpen : (removeOne j st.pending).length + 1 = st.pending.length :=
      length_removeOne hp
    refine ⟨by rw [setJob_map_jid hf]; exact hnod, ?_, hcap⟩
    cases hl : lookupJob j st.jobs with
    | none =>
      dsimp only
      rw [setJob_not_mem (lookupJob_none_iff.mp hl)]
      omega
    | some r0 =>
      have heq := countT_setJob hnod hl (fun r => (startFtsTransfer o handle details r).1)
      have h1 := tbW_le_one r0
      have h2 := tbW_le_one ((startFtsTransfer o handle details r0).1)
      dsimp only
      omega
  | pollTerm j s d hs hrel =>
    have hf : ∀ r : JobRec, (pollApply s d r).job_id = r.job_id := jid_pollApply s d
    rcases Option.map_eq_some'.mp hs with ⟨r0, hl, hst⟩
    have heq := countT_setJob hnod hl (pollApply s d)
    have h1 : tbW r0 = 1 := by rw [tbW, if_pos hst]
    have h2 : tbW (pollApply s d r0) = 0 := tbW_pollApply_term hrel d r0
    have h3 : 1 ≤ countT st.jobs := countT_pos hl hst
    refine ⟨by rw [setJob_map_jid hf]; exact hnod, ?_, ?_⟩ <;> (dsimp only; omega)
  | pollProg j s d hs hrel =>
    have hf : ∀ r : JobRec, (pollApply s d r).job_id = r.job_id := jid_pollApply s d
    rcases Option.map_eq_some'.mp hs with ⟨r0, hl, hst⟩
    have heq := countT_setJob hnod hl (pollApply s d)
    have h2 : tbW (pollApply s d r0) = tbW r0 := tbW_pollApply_prog hrel d r0
    refine ⟨by rw [setJob_map_jid hf]; exact hnod, ?_, hcap⟩
    dsimp only
    omega

theorem gateInv_steps {N : Nat} {st : OrchState} {tr : List Lab}
    {st' : OrchState} (h : OSteps N st tr st') (hI : gateInv N st) :
    gateInv N st' := by
  induction h with
  | nil st => exact hI
  | cons hstep hrest ih => exact ih (gateInv_step hstep hI)

theorem jobStatus_terminal_mem {j : Nat} {st : OrchState}
    (h : jobStatus st j = some Status.SUCCESS ∨
         jobStatus st j = some Status.ERROR) :
    j ∈ jids st := by
  rcases h with h | h <;>
  · rcases Option.map_eq_some'.mp h with ⟨r0, hl, _⟩
    rcases lookupJob_some hl with ⟨hm, hid⟩
    exact hid ▸ List.mem_map_of_mem (fun r => r.job_id) hm

theorem noTouch_step {N : Nat} {j : Nat} {st : OrchState} {l : Lab}
    {st' : OrchState} (h : OStep N st l st') (hn : noTouch j st) :
    noTouch j st' ∧ ¬ l = Lab.rel j := by
  rcases hn with ⟨hterm, hpen, hque⟩
  cases h with
  | newJob k hk =>
    have hkj : ¬ k = j := fun he => hk (he ▸ jobStatus_terminal_mem hterm)
    refine ⟨⟨?_, hpen, ?_⟩, by intro he; cases he⟩
    · have hpres : ∀ X : Status, jobStatus st j = some X →
          jobStatus ⟨st.jobs ++ [newRec k], st.queue ++ [some k],
            st.pending, st.held⟩ j = some X := by
        intro X hX
        rcases Option.map_eq_some'.mp hX with ⟨r0, hl, hs0⟩
        have := lookupJob_append_left [newRec k] hl
        simp only [jobStatus, this, Option.map_some']
        exact congrArg some hs0
      rcases hterm with h1 | h1
      · exact Or.inl (hpres _ h1)
      · exact Or.inr (hpres _ h1)
    · dsimp only
      intro hm
      rcases List.mem_append.mp hm with hm1 | hm2
      · exact hque hm1
      · rcases List.mem_singleton.mp hm2 with he
        exact hkj (Option.some.inj he).symm
  | emptyMsg q hq =>
    refine ⟨⟨hterm, hpen, ?_⟩, by intro he; cases he⟩
    intro hm
    exact hque (hq ▸ List.mem_cons_of_mem none hm)
  | dispatch k q hq hN =>
    have hkj : ¬ k = j := by
      intro he
      exact hque (hq ▸ (he ▸ List.mem_cons_self (some k) q))
    refine ⟨⟨hterm, ?_, ?_⟩, by intro he; cases he⟩
    · dsimp only
      intro hm
      rcases List.mem_append.mp hm with hm1 | hm2
      · exact hpen hm1
      · exact hkj (List.mem_singleton.mp hm2).symm
    · dsimp only
      intro hm
      exact hque (hq ▸ List.mem_cons_of_mem (some k) hm)
  | execFin k o handle details hp =>
    have hkj : ¬ j = k := fun he => hpen (he ▸ hp)
    have hf : ∀ r : JobRec, ((startFtsTransfer o handle details r).1).job_id = r.job_id :=
      jid_startFtsTransfer o handle details
    refine ⟨⟨?_, ?_, hque⟩, by intro he; cases he⟩
    · simpa only [jobStatus, lookupJob_setJob_ne hf hkj] using hterm
    · dsimp only
      intro hm
      exact hpen (mem_of_mem_removeOne hm)
  | pollTerm k s d hs hrel =>
    have hkj : ¬ j = k := by
      intro he
      rw [← he] at hs
      rcases hterm with h1 | h1 <;>
      · rw [h1] at hs
        cases Option.some.inj hs
    have hf : ∀ r : JobRec, (pollApply s d r).job_id = r.job_id := jid_pollApply s d
    refine ⟨⟨?_, hpen, hque⟩, ?_⟩
    · simpa only [jobStatus, lookupJob_setJob_ne hf hkj] using hterm
    · intro he
      cases he
      exact hkj rfl
  | pollProg k s d hs hrel =>
    have hkj : ¬ j = k := by
      intro he
      rw [← he] at hs
      rcases hterm with h1 | h1 <;>
      · rw [h1] at hs
        cases Option.some.inj hs
    have hf : ∀ r : JobRec, (pollApply s d r).job_id = r.job_id := jid_pollApply s d
    refine ⟨⟨?_, hpen, hque⟩, by intro he; cases he⟩
    simpa only [jobStatus, lookupJob_setJob_ne hf hkj] using hterm

theorem noTouch_steps {N : Nat} {j : Nat} {st : OrchState} {tr : List Lab}
    {st' : OrchState} (h : OSteps N st tr st') (hn : noTouch j st) :
    relCount j tr = 0 ∧ noTouch j st' := by
  induction h with
  | nil st => exact ⟨rfl, hn⟩
  | cons hstep hrest ih =>
    rcases noTouch_step hstep hn with ⟨hn2, hl⟩
    rcases ih hn2 with ⟨hc, hn3⟩
    refine ⟨?_, hn3⟩
    rw [relCount, if_neg hl, hc]

theorem natCount_append (j : Nat) (a b : List Nat) :
    natCount j (a ++ b) = natCount j a + natCount j b := by
  induction a with
  | nil => simp [natCount]
  | cons k l ih => simp [natCount, ih]; omega

theorem mem_listTransferring {r : JobRec} {store : List JobRec}
    (hr : r ∈ store) (ht : r.status = Status.TRANSFERRING) :
    (r.job_id, r.fts_jobid) ∈ listTransferring store := by
  induction store with
  | nil => simp at hr
  | cons a l ih =>
    rcases List.mem_cons.mp hr with he | hm
    · subst he
      rw [listTransferring, if_pos ht]
      exact List.mem_cons_self _ _
    · by_cases ha : a.status = Status.TRANSFERRING
      · rw [listTransferring, if_pos ha]
        exact List.mem_cons_of_mem _ (ih hm)
      · rw [listTransferring, if_neg ha]
        exact ih hm

theorem fst_listTransferring_mem {j : Nat} {store : List JobRec}
    (h : j ∈ (listTransferring store).map Prod.fst) :
    ∃ r, r ∈ store ∧ r.job_id = j ∧ r.status = Status.TRANSFERRING := by
  induction store with
  | nil => simp [listTransferring] at h
  | cons a l ih =>
    by_cases ha : a.status = Status.TRANSFERRING
    · rw [listTransferring, if_pos ha, List.map_cons] at h
      rcases List.mem_cons.mp h with he | hm
      · exact ⟨a, List.mem_cons_self a l, he.symm, ha⟩
      · rcases ih hm with ⟨r, hrm, hrj, hrs⟩
        exact ⟨r, List.mem_cons_of_mem a hrm, hrj, hrs⟩
    · rw [listTransferring, if_neg ha] at h
      rcases ih h with ⟨r, hrm, hrj, hrs⟩
      exact ⟨r, List.mem_cons_of_mem a hrm, hrj, hrs⟩

theorem nodup_fst_listTransferring {store : List JobRec}
    (hnod : (store.map (fun r => r.job_id)).Nodup) :
    ((listTransferring store).map Prod.fst).Nodup := by
  induction store with
  | nil => simp [listTransferring]
  | cons a l ih =>
    rw [List.map_cons, List.nodup_cons] at hnod
    by_cases ha : a.status = Status.TRANSFERRING
    · rw [listTransferring, if_pos ha, List.map_cons, List.nodup_cons]
      refine ⟨?_, ih hnod.2⟩
      intro hm
      rcases fst_listTransferring_mem hm with ⟨r, hrm, hrj, _⟩
      have hrj2 : r.job_id = a.job_id := hrj
      exact hnod.1 (hrj2 ▸ List.mem_map_of_mem (fun r => r.job_id) hrm)
    · rw [listTransferring, if_neg ha]
      exact ih hnod.2

theorem pollLoop_not_mem {j : Nat}
    (ext : Option Nat → FtsJobState × Nat) (qfail : Nat → Bool) :
    ∀ (L : List (Nat × Option Nat)) (store : List JobRec),
    ¬ j ∈ L.map Prod.fst →
    lookupJob j (pollLoop ext qfail L store).1 = lookupJob j store ∧
    natCount j (pollLoop ext qfail L store).2.1 = 0 := by
  intro L
  induction L with
  | nil =>
    intro store h
    simp [pollLoop, natCount]
  | cons p rest ih =>
    intro store h
    rcases p with ⟨k, hd⟩
    rw [List.map_cons] at h
    have hjk : ¬ j = k := fun he => h (he ▸ List.mem_cons_self _ _)
    have hrest : ¬ j ∈ rest.map Prod.fst :=
      fun hm => h (List.mem_cons_of_mem _ hm)
    cases hqf : qfail k with
    | true =>
      simp [pollLoop, hqf, natCount]
    | false =>
      have hf : ∀ r : JobRec, (pollApply (ext hd).1 (ext hd).2 r).job_id = r.job_id :=
        jid_pollApply (ext hd).1 (ext hd).2
      have hih := ih (setJob k (pollApply (ext hd).1 (ext hd).2) store) hrest
      simp only [pollLoop, hqf]
      refine ⟨?_, ?_⟩
      · rw [hih.1, lookupJob_setJob_ne hf hjk]
      · rw [natCount_append, hih.2]
        cases hpr : pollRel (ext hd).1 with
        | true =>
          have hkj : ¬ k = j := fun he => hjk he.symm
          simp [natCount, hkj]
        | false => simp [natCount]

theorem pollLoop_spec {j : Nat} {hd : Option Nat}
    (ext : Option Nat → FtsJobState × Nat) (qfail : Nat → Bool) :
    ∀ (L : List (Nat × Option Nat)) (store : List JobRec),
    (L.map Prod.fst).Nodup →
    (∀ p ∈ L, qfail p.1 = false) →
    (j, hd) ∈ L →
    ∀ r0 : JobRec, lookupJob j store = some r0 →
    lookupJob j (pollLoop ext qfail L store).1 =
      some (pollApply (ext hd).1 (ext hd).2 r0) ∧
    natCount j (pollLoop ext qfail L store).2.1 =
      (if pollRel (ext hd).1 then 1 else 0) := by
  intro L
  induction L with
  | nil =>
    intro store _ _ hmem
    simp at hmem
  | cons p rest ih =>
    intro store hnod hq hmem r0 hr0
    rcases p with ⟨k, kd⟩
    rw [List.map_cons, List.nodup_cons] at hnod
    have hqk : qfail k = false := hq (k, kd) (List.mem_cons_self _ _)
    have hfk : ∀ r : JobRec, (pollApply (ext kd).1 (ext kd).2 r).job_id = r.job_id :=
      jid_pollApply (ext kd).1 (ext kd).2
    rcases List.mem_cons.mp hmem with he | hm
    · have hjk : j = k := congrArg Prod.fst he
      have hhd : hd = kd := congrArg Prod.snd he
      subst hjk
      subst hhd
      simp only [pollLoop, hqk]
      have hstore' : lookupJob j (setJob j (pollApply (ext hd).1 (ext hd).2) store) =
          some (pollApply (ext hd).1 (ext hd).2 r0) := by
        rw [lookupJob_setJob_self hfk, hr0, Option.map_some']
      have hnm := pollLoop_not_mem ext qfail rest
        (setJob j (pollApply (ext hd).1 (ext hd).2) store) hnod.1
      refine ⟨?_, ?_⟩
      · rw [hnm.1, hstore']
      · rw [natCount_append, hnm.2]
        cases hpr : pollRel (ext hd).1 with
        | true => simp [natCount]
        | false => simp [natCount]
    · have hjk : ¬ j = k := by
        intro he
        apply hnod.1
        show k ∈ rest.map Prod.fst
        rw [← he]
        exact List.mem_map_of_mem Prod.fst hm
      have hq2 : ∀ p ∈ rest, qfail p.1 = false :=
        fun p hp => hq p (List.mem_cons_of_mem _ hp)
      have hr0' : lookupJob j (setJob k (pollApply (ext kd).1 (ext kd).2) store) =
          some r0 := by
        rw [lookupJob_setJob_ne hfk hjk, hr0]
      have hih := ih (setJob k (pollApply (ext kd).1 (ext kd).2) store)
        hnod.2 hq2 hm r0 hr0'
      simp only [pollLoop, hqk]
      refine ⟨hih.1, ?_⟩
      rw [natCount_append, hih.2]
      cases hpr : pollRel (ext kd).1 with
      | true =>
        have hkj : ¬ k = j := fun he => hjk he.symm
        simp [natCount, hkj]
      | false => simp [natCount]

theorem pollLoop_abort (ext : Option Nat → FtsJobState × Nat)
    (qfail : Nat → Bool) {p : Nat × Option Nat} (hp : qfail p.1 = true) :
    ∀ (L1 L2 : List (Nat × Option Nat)) (store : List JobRec),
    (∀ q ∈ L1, qfail q.1 = false) →
    pollLoop ext qfail (L1 ++ p :: L2) store =
      ((pollLoop ext qfail L1 store).1,
       (pollLoop ext qfail L1 store).2.1, true) := by
  intro L1
  induction L1 with
  | nil =>
    intro L2 store _
    rcases p with ⟨k, kd⟩
    simp only [List.nil_append, pollLoop]
    rw [hp]
  | cons q rest ih =>
    intro L2 store hq
    rcases q with ⟨k, kd⟩
    have hqk : qfail k = false := hq (k, kd) (List.mem_cons_self _ _)
    have hq2 : ∀ x ∈ rest, qfail x.1 = false :=
      fun x hx => hq x (List.mem_cons_of_mem _ hx)
    simp only [List.cons_append, pollLoop, hqk, List.append_eq]
    rw [ih L2 (setJob k (pollApply (ext kd).1 (ext kd).2) store) hq2]

/-- C1: on a submission failure (the `fts3.submit` block — which also
contains the immediate initial `fts3.get_job_status` — raising),
`_start_fts_transfer` marks the job `ERROR` with the submission diagnostic
but performs zero `_sem_fts.release()` calls: no path of the function
releases the slot acquired at intake, so contrary to the claim the job
holds its gate slot forever. -/
theorem C1_submit_failure_marks_error_releases_nothing
    (handle details : Nat) (r : JobRec) :
    (startFtsTransfer SubmitOutcome.submitFail handle details r).1.status
      = Status.ERROR ∧
    (startFtsTransfer SubmitOutcome.submitFail handle details r).1.extra_status
      = some submitFailMsg ∧
    (startFtsTransfer SubmitOutcome.submitFail handle details r).2 = 0 :=
  ⟨rfl, rfl, rfl⟩

/-- C2: in every reachable orchestrator state the number of held
admission-gate slots is at most the configured maximum `N` (the
`DeferredSemaphore`'s initial count), and hence the number of jobs in
status `TRANSFERRING` is also at most `N`. -/
theorem C2_gate_bound {N : Nat} {tr : List Lab} {st : OrchState}
    (h : OSteps N initOrch tr st) :
    st.held ≤ N ∧ countT st.jobs ≤ N := by
  rcases gateInv_steps h (gateInv_init N) with ⟨hnod, hbound, hcap⟩
  exact ⟨hcap, by omega⟩

theorem C2_gate_bound_witness :
    (⟨[⟨0, Status.TRANSFERRING, none, some 7, some 9⟩], [], [], 1⟩ : OrchState).held ≤ 2 ∧
    countT (⟨[⟨0, Status.TRANSFERRING, none, some 7, some 9⟩], [], [], 1⟩ : OrchState).jobs ≤ 2 :=
  C2_gate_bound
    (OSteps.cons (OStep.newJob initOrch 0 (by decide))
      (OSteps.cons (OStep.dispatch ⟨[newRec 0], [some 0], [], 0⟩ 0 [] rfl (by decide))
        (OSteps.cons (OStep.execFin ⟨[newRec 0], [], [0], 1⟩ 0 SubmitOutcome.ok 7 9 (by decide))
          (OSteps.nil ⟨[⟨0, Status.TRANSFERRING, none, some 7, some 9⟩], [], [], 1⟩))))

/-- C3: the "released exactly once" half of the claim fails on the code.
In the concrete run below, job 0 is enqueued, dispatched (exactly one
`acquire`, at intake, is in the trace) and its FTS submission raises; the
job ends in `ERROR`, the trace contains zero releases for job 0, the slot
stays held (`held = 1`), and no continuation of the run can ever release
it — which also exhibits the true idempotence half: once the job is
terminal, no later step (in particular no later poller observation)
releases a slot for it. -/
theorem C3_submit_failure_slot_never_released :
    OSteps 1 initOrch [Lab.tau, Lab.acq 0, Lab.tau]
      ⟨[⟨0, Status.ERROR, some submitFailMsg, none, none⟩], [], [], 1⟩ ∧
    acqCount 0 [Lab.tau, Lab.acq 0, Lab.tau] = 1 ∧
    relCount 0 [Lab.tau, Lab.acq 0, Lab.tau] = 0 ∧
    jobStatus ⟨[⟨0, Status.ERROR, some submitFailMsg, none, none⟩], [], [], 1⟩ 0
      = some Status.ERROR ∧
    (⟨[⟨0, Status.ERROR, some submitFailMsg, none, none⟩], [], [], 1⟩ : OrchState).held = 1 ∧
    (∀ (tr : List Lab) (st' : OrchState),
      OSteps 1 ⟨[⟨0, Status.ERROR, some submitFailMsg, none, none⟩], [], [], 1⟩ tr st' →
      relCount 0 tr = 0) := by
  refine ⟨?_, by decide, by decide, rfl, rfl, ?_⟩
  · exact OSteps.cons (OStep.newJob initOrch 0 (by decide))
      (OSteps.cons (OStep.dispatch ⟨[newRec 0], [some 0], [], 0⟩ 0 [] rfl (by decide))
        (OSteps.cons
          (OStep.execFin ⟨[newRec 0], [], [0], 1⟩ 0 SubmitOutcome.submitFail 0 0 (by decide))
          (OSteps.nil ⟨[⟨0, Status.ERROR, some submitFailMsg, none, none⟩], [], [], 1⟩)))
  · intro tr st' hsteps
    have hn : noTouch 0
        ⟨[⟨0, Status.ERROR, some submitFailMsg, none, none⟩], [], [], 1⟩ := by
      refine ⟨Or.inr rfl, ?_, ?_⟩ <;> simp
    exact (noTouch_steps hsteps hn).1

/-- C4: in an `_FTSUpdater` run in which no per-job call raises, every job
listed with status `TRANSFERRING` is handled as the claim states: external
`FINISHED` updates the row to status `SUCCESS` with the external details
persisted and exactly one gate release; `FAILED` updates to `ERROR` with
the details and one release; any other external state persists the details
only — no status change and no release (`pollApply`/`pollRel` are the
per-branch row update and release decision of the source loop). -/
theorem C4_poller_per_job (ext : Option Nat → FtsJobState × Nat)
    (qfail : Nat → Bool) (store : List JobRec)
    (hnod : (store.map (fun r => r.job_id)).Nodup)
    (hq : ∀ p ∈ listTransferring store, qfail p.1 = false)
    (r : JobRec) (hr : r ∈ store) (ht : r.status = Status.TRANSFERRING) :
    lookupJob r.job_id (ftsUpdater true true ext qfail store).1 =
      some (pollApply (ext r.fts_jobid).1 (ext r.fts_jobid).2 r) ∧
    natCount r.job_id (ftsUpdater true true ext qfail store).2.1 =
      (if pollRel (ext r.fts_jobid).1 then 1 else 0) := by
  have hmem := mem_listTransferring hr ht
  have hnodL := nodup_fst_listTransferring hnod
  have hr0 : lookupJob r.job_id store = some r := lookupJob_of_mem_nodup hnod hr
  have h := pollLoop_spec ext qfail (listTransferring store) store hnodL hq hmem r hr0
  simpa only [ftsUpdater] using h

theorem C4_poller_per_job_witness :
    lookupJob 5 (ftsUpdater true true (fun _ => (FtsJobState.FINISHED, 42))
        (fun _ => false) [⟨5, Status.TRANSFERRING, none, some 3, none⟩]).1 =
      some ⟨5, Status.SUCCESS, none, some 3, some 42⟩ ∧
    natCount 5 (ftsUpdater true true (fun _ => (FtsJobState.FINISHED, 42))
        (fun _ => false) [⟨5, Status.TRANSFERRING, none, some 3, none⟩]).2.1 = 1 :=
  C4_poller_per_job (fun _ => (FtsJobState.FINISHED, 42)) (fun _ => false)
    [⟨5, Status.TRANSFERRING, none, some 3, none⟩] (by decide)
    (fun p _ => rfl) ⟨5, Status.TRANSFERRING, none, some 3, none⟩
    (List.mem_cons_self _ _) rfl

/-- C5 counterexample: with jobs 1 and 2 both listed as `TRANSFERRING`,
job 1's status query raising aborts the whole run (the source wraps the
whole `for` loop in a single `try`), so job 2 — whose own query would
succeed and report `FINISHED` — is not processed in that run: the store
comes back completely unchanged (job 2 keeps `TRANSFERRING` instead of
the `SUCCESS` the claim requires) and no release happens. -/
theorem C5_per_job_failure_skips_rest_cex :
    (2, some 2) ∈ listTransferring
      [⟨1, Status.TRANSFERRING, none, some 1, none⟩,
       ⟨2, Status.TRANSFERRING, none, some 2, none⟩] ∧
    ftsUpdater true true (fun _ => (FtsJobState.FINISHED, 9))
      (fun j => decide (j = 1))
      [⟨1, Status.TRANSFERRING, none, some 1, none⟩,
       ⟨2, Status.TRANSFERRING, none, some 2, none⟩] =
      ([⟨1, Status.TRANSFERRING, none, some 1, none⟩,
        ⟨2, Status.TRANSFERRING, none, some 2, none⟩], [], true) :=
  ⟨by decide, by decide⟩

/-- C5 amended: a per-job failure (query or store-update error) is logged
and aborts the remainder of the run: jobs before the failing entry in the
frozen list are processed normally, while the failing job and every later
entry are left untouched until the next run; a listing failure (and a
context-creation failure) aborts the run with no partial work. -/
theorem C5_per_job_failure_aborts_run (ext : Option Nat → FtsJobState × Nat)
    (qfail : Nat → Bool) (L1 L2 : List (Nat × Option Nat))
    (p : Nat × Option Nat) (store : List JobRec)
    (h1 : ∀ q ∈ L1, qfail q.1 = false) (hp : qfail p.1 = true) :
    pollLoop ext qfail (L1 ++ p :: L2) store =
      ((pollLoop ext qfail L1 store).1,
       (pollLoop ext qfail L1 store).2.1, true) ∧
    ftsUpdater true false ext qfail store = (store, [], true) ∧
    ftsUpdater false true ext qfail store = (store, [], true) :=
  ⟨pollLoop_abort ext qfail hp L1 L2 store h1, rfl, rfl⟩

theorem C5_per_job_failure_aborts_run_witness :
    pollLoop (fun _ => (FtsJobState.FINISHED, 9)) (fun j => decide (j = 1))
      ([(3, some 3)] ++ (1, some 1) :: [(2, some 2)])
      [⟨3, Status.TRANSFERRING, none, some 3, none⟩] =
      ((pollLoop (fun _ => (FtsJobState.FINISHED, 9)) (fun j => decide (j = 1))
          [(3, some 3)] [⟨3, Status.TRANSFERRING, none, some 3, none⟩]).1,
       (pollLoop (fun _ => (FtsJobState.FINISHED, 9)) (fun j => decide (j = 1))
          [(3, some 3)] [⟨3, Status.TRANSFERRING, none, some 3, none⟩]).2.1,
       true) ∧
    ftsUpdater true false (fun _ => (FtsJobState.FINISHED, 9))
      (fun j => decide (j = 1))
      [⟨3, Status.TRANSFERRING, none, some 3, none⟩] =
      ([⟨3, Status.TRANSFERRING, none, some 3, none⟩], [], true) ∧
    ftsUpdater false true (fun _ => (FtsJobState.FINISHED, 9))
      (fun j => decide (j = 1))
      [⟨3, Status.TRANSFERRING, none, some 3, none⟩] =
      ([⟨3, Status.TRANSFERRING, none, some 3, none⟩], [], true) :=
  C5_per_job_failure_aborts_run (fun _ => (FtsJobState.FINISHED, 9))
    (fun j => decide (j = 1)) [(3, some 3)] [(2, some 2)] (1, some 1)
    [⟨3, Status.TRANSFERRING, none, some 3, none⟩]
    (by decide) (by decide)

/-- C6 counterexample: `_start_fts_transfer`'s store updates are
unconditional on the current status (`WHERE job_id = %s` only), so a
redelivered intake message for a job already in the terminal status
`SUCCESS` resubmits the transfer and overwrites the status with
`TRANSFERRING` — the claim's "never changes again / diagnostic fields
only" is violated. -/
theorem C6_terminal_not_sticky_cex :
    (startFtsTransfer SubmitOutcome.ok 9 3
        ⟨0, Status.SUCCESS, none, some 5, some 7⟩).1.status
      = Status.TRANSFERRING ∧
    ¬ (startFtsTransfer SubmitOutcome.ok 9 3
        ⟨0, Status.SUCCESS, none, some 5, some 7⟩).1.status
      = Status.SUCCESS := by
  exact ⟨rfl, by decide⟩

/-- C6 amended: terminal statuses are sticky under the reconciliation
poller: `_FTSUpdater` selects only `TRANSFERRING` rows, so one of its runs
leaves a terminal job's row completely unchanged (in particular its
status) and releases nothing for it; the unconditional updates of the
submission executor, however, can overwrite a terminal status when an
intake message is redelivered. -/
theorem C6_poller_leaves_terminal_unchanged
    (ext : Option Nat → FtsJobState × Nat) (qfail : Nat → Bool)
    (store : List JobRec) (j : Nat) (r : JobRec)
    (hnod : (store.map (fun r => r.job_id)).Nodup)
    (hr : lookupJob j store = some r)
    (ht : r.status = Status.SUCCESS ∨ r.status = Status.ERROR) :
    lookupJob j (ftsUpdater true true ext qfail store).1 = some r ∧
    natCount j (ftsUpdater true true ext qfail store).2.1 = 0 := by
  have hnm : ¬ j ∈ (listTransferring store).map Prod.fst := by
    intro hm
    rcases fst_listTransferring_mem hm with ⟨r2, hrm, hrj, hrs⟩
    have hl2 := lookupJob_of_mem_nodup hnod hrm
    rw [hrj, hr] at hl2
    have hr2 : r = r2 := Option.some.inj hl2
    rw [← hr2] at hrs
    rcases ht with h1 | h1 <;> rw [hrs] at h1 <;> cases h1
  have h := pollLoop_not_mem ext qfail (listTransferring store) store hnm
  simp only [ftsUpdater]
  exact ⟨by rw [h.1, hr], h.2⟩

theorem C6_poller_leaves_terminal_unchanged_witness :
    lookupJob 7 (ftsUpdater true true (fun _ => (FtsJobState.FAILED, 1))
      (fun _ => false) [⟨7, Status.SUCCESS, none, some 1, some 2⟩]).1 =
      some ⟨7, Status.SUCCESS, none, some 1, some 2⟩ ∧
    natCount 7 (ftsUpdater true true (fun _ => (FtsJobState.FAILED, 1))
      (fun _ => false) [⟨7, Status.SUCCESS, none, some 1, some 2⟩]).2.1 = 0 :=
  C6_poller_leaves_terminal_unchanged (fun _ => (FtsJobState.FAILED, 1))
    (fun _ => false) [⟨7, Status.SUCCESS, none, some 1, some 2⟩] 7
    ⟨7, Status.SUCCESS, none, some 1, some 2⟩ (by decide) rfl (Or.inl rfl)

/-- C7: a valid submission with every saga step succeeding leaves the job
record in `STAGING`, publishes exactly that job's identifier to the
staging queue, and answers accepted; when the publish step fails, the
record keeps its pessimistic creation default `ERROR`, nothing is
published, and no later saga step runs — the outcome is independent of the
status-update oracle `u`. -/
theorem C7_intake_saga (jid : Nat) (u : Bool) :
    renderPost true true jid true true true =
      ⟨some Status.STAGING, [jid], SagaResp.accepted jid⟩ ∧
    renderPost true true jid true false u =
      ⟨some Status.ERROR, [], SagaResp.noBodyWritten⟩ :=
  ⟨rfl, rfl⟩

/-- C8: the transfer descriptor strings built by `_start_fts_transfer`:
for `stager_hostname = h`, `stager_path = /a/b/c`,
`destination_path = /x/y` the source URL is `gsiftp://h/a/b/c` and the
destination is `/x/y/c`; basename extraction, trailing-separator stripping
and the general construction shape are stated explicitly. -/
theorem C8_url_construction :
    mkFtsSrc "h".toList "/a/b/c".toList = "gsiftp://h/a/b/c".toList ∧
    mkFtsDst "/x/y".toList "/a/b/c".toList = "/x/y/c".toList ∧
    pathBasename "/a/b/c".toList = "c".toList ∧
    rstripSep "/a/b/c///".toList = "/a/b/c".toList ∧
    mkFtsDst "/x/y///".toList "/a/b/c".toList = "/x/y/c".toList ∧
    (∀ host sp dp : List Char,
      mkFtsSrc host sp = "gsiftp://".toList ++ host ++ rstripSep sp ∧
      mkFtsDst dp sp = rstripSep dp ++ '/' :: pathBasename sp) :=
  ⟨by decide, by decide, by decide, by decide, by decide,
   fun host sp dp => ⟨rfl, rfl⟩⟩

/-- C9: the saga's step failures are not surfaced as structured error
responses: a record-creation failure and a publish failure both leave the
request unanswered (the swapped `isinstance` arguments make
`handleCreationError` raise `TypeError` before writing any body), and a
STAGING-update failure is swallowed inside `update_job_status_submitted`,
so the chain proceeds to `report_job_creation` and the caller receives the
202 accepted/success response for a failing submission. -/
theorem C9_saga_failures_not_reported (jid : Nat) (u v : Bool) :
    (renderPost true true jid false u v).resp = SagaResp.noBodyWritten ∧
    (renderPost true true jid true false v).resp = SagaResp.noBodyWritten ∧
    (renderPost true true jid true true false).resp = SagaResp.accepted jid :=
  ⟨rfl, rfl, rfl⟩

/-- C10: when the dequeued transfer-intake message body is empty (falsy),
the listener iteration acquires no gate slot, dispatches no submission
executor and sends no acknowledgment; it goes straight back to waiting for
the next message. -/
theorem C10_empty_body_no_effects (body : List Char) (h : body = []) :
    transferQueueIter body = ⟨false, [], false⟩ := by
  rw [h]
  rfl

theorem C10_empty_body_no_effects_witness :
    transferQueueIter [] = ⟨false, [], false⟩ :=
  C10_empty_body_no_effects [] rfl
